import Mathlib

/-!
# Game prototype: a shallow embedding of `6nq6_construct_a_rea.go`

The Go program keeps its sprites behind pointers and its enemies and bullets in
slices.  Both are kept here:

* a sprite pointer is a `Ptr`, the sprite it points to is read from the memory
  `mem : Ptr → Sprite` of the game state, and pointer equality (`e == enemy`)
  is equality of the `Ptr`s;
* a slice is the pair of its visible elements (`elems`, indices `0 .. len-1` of
  the backing array) and the rest of its backing array (`spare`, indices
  `len .. cap-1`), so that `append` within capacity writes into the array in
  place and a `range` loop started earlier still reads the array that is
  being written.

A `float64` coordinate is carried as the rational it stands for, and `float64`
addition is not computed here: it is the operation `fadd` of the outside world,
so nothing is assumed about how a sum is rounded.  Everything the program asks
of the window library, the picture loader, the clock, the random source, the
allocator and the floating-point unit is answered by a record `Ext` of external
answers.
-/

namespace GameProto

/-! ## Vectors, rectangles, sprites -/

/-- The `pixel.Vec` type: a point of the plane. -/
structure Vec where
  X : ℚ
  Y : ℚ
deriving DecidableEq

/-- The `pixel.V` constructor. -/
def V (x y : ℚ) : Vec := ⟨x, y⟩

/-- The `Vec.Add` method: componentwise sum, `fadd` being the addition of
`float64`. -/
def Vec.Add (fadd : ℚ → ℚ → ℚ) (u v : Vec) : Vec := V (fadd u.X v.X) (fadd u.Y v.Y)

/-- The `pixel.Rect` type: an axis-aligned rectangle. -/
structure Rect where
  Min : Vec
  Max : Vec
deriving DecidableEq

/-- The `pixel.R` constructor. -/
def R (minX minY maxX maxY : ℚ) : Rect := ⟨V minX minY, V maxX maxY⟩

/-- A sprite object as the program uses it: the `Pos` field it assigns, and the
frame the sprite was created with (`pixel.NewSprite(pic, pic.Bounds())`). -/
structure Sprite where
  Pos : Vec
  frame : Rect
deriving DecidableEq

/-- A `*pixel.Sprite`. -/
abbrev Ptr := Nat

/-- The nil pointer, the content of freshly allocated array cells. -/
def nilPtr : Ptr := 0

/-- The sprite objects, by address. -/
abbrev Heap := Ptr → Sprite

/-- Store `s` at address `p`. -/
def Heap.set (h : Heap) (p : Ptr) (s : Sprite) : Heap :=
  fun q => if q = p then s else h q

/-- The assignment `p.Pos = v` through the pointer `p`. -/
def Heap.setPos (h : Heap) (p : Ptr) (v : Vec) : Heap :=
  h.set p { h p with Pos := v }

/-! ## Slices -/

/-- A `[]*pixel.Sprite` starting at the beginning of its backing array:
`elems` are the cells `0 .. len-1`, `spare` the cells `len .. cap-1`. -/
structure Slice where
  elems : List Ptr
  spare : List Ptr
deriving DecidableEq

/-- The builtin `len`. -/
def Slice.len (s : Slice) : Nat := s.elems.length

/-- The backing array. -/
def Slice.arr (s : Slice) : List Ptr := s.elems ++ s.spare

/-- The builtin `cap`. -/
def Slice.cap (s : Slice) : Nat := s.arr.length

/-- The expression `make([]*pixel.Sprite, 0)`. -/
def Slice.make0 : Slice := ⟨[], []⟩

/-- The slice expression `s[:i]` (same array, same capacity, length `i`). -/
def Slice.upTo (s : Slice) (i : Nat) : Slice := ⟨s.arr.take i, s.arr.drop i⟩

/-- The values of the slice expression `s[i:]`. -/
def Slice.after (s : Slice) (i : Nat) : List Ptr := s.elems.drop i

/-- The builtin `append(s, xs...)`.  Within capacity the values are written
into the backing array after the visible elements; otherwise a new array is
allocated, with `extra` zeroed cells beyond the ones needed (how many is the
runtime's choice). -/
def append (extra : Nat) (s : Slice) (xs : List Ptr) : Slice :=
  if s.len + xs.length ≤ s.cap then
    ⟨s.elems ++ xs, s.spare.drop xs.length⟩
  else
    ⟨s.elems ++ xs, List.replicate extra nilPtr⟩

/-! ## The outside world -/

/-- The `pixelgl.WindowConfig` fields the program sets. -/
structure WindowConfig where
  Title : String
  Bounds : Rect
  VSync : Bool
deriving DecidableEq

/-- The `pixelgl.Window` as far as the program acts on it: its title and the
sprites drawn on it since it was created. -/
structure Window where
  title : String
  drawn : List Ptr
deriving DecidableEq

/-- The answers of everything outside the program during one call. -/
structure Ext where
  /-- the method `Sprite.Frame` -/
  Frame : Sprite → Rect
  /-- the method `Rect.Intersect`, as the condition of the `if` reads it -/
  Intersect : Rect → Rect → Bool
  /-- the function `pixelgl.NewWindow` -/
  NewWindow : WindowConfig → Except String Window
  /-- the function `pixelgl.LoadPicture`: the bounds of the picture, or an error -/
  LoadPicture : String → Except String Rect
  /-- the address `pixel.NewSprite` allocates the sprite at -/
  alloc : Ptr
  /-- the method `Window.MousePosition` -/
  MousePosition : Vec
  /-- the function `math.Sin` -/
  Sin : ℚ → ℚ
  /-- the `k`-th reading of `time.Now()` during the call, in seconds -/
  clock : Nat → ℚ
  /-- the raw draws behind the two calls of `rand.Intn` -/
  randX : Nat
  randY : Nat
  /-- the spare cells the runtime adds when `append` allocates -/
  extra : Nat
  /-- the addition of `float64`, rounding included -/
  fadd : ℚ → ℚ → ℚ

/-- The function `rand.Intn`: the raw draw reduced to `[0, n)`. -/
def Intn (raw n : Nat) : Nat := raw % n

/-! ## The game state -/

/-- The `GamePrototype` struct, with the memory its pointers point into. -/
structure GamePrototype where
  window : Window
  player : Ptr
  enemies : Slice
  bullets : Slice
  score : Int
  level : Int
  fps : Int
  lastTime : ℚ
  mem : Heap

/-- The function `loadSprite`: the pointer to a new sprite framed by the bounds
of the loaded picture, or the loader's error. -/
def loadSprite (x : Ext) (mem : Heap) (filename : String) : Except String Ptr × Heap :=
  match x.LoadPicture filename with
  | .error err => (.error err, mem)
  | .ok bounds => (.ok x.alloc, mem.set x.alloc ⟨V 0 0, bounds⟩)

/-- The function `NewGamePrototype`. -/
def NewGamePrototype (x : Ext) (winTitle : String) : Except String GamePrototype :=
  match x.NewWindow ⟨winTitle, R 0 0 1024 768, true⟩ with
  | .error err => .error err
  | .ok win =>
    match loadSprite x (fun _ => ⟨V 0 0, R 0 0 0 0⟩) "player.png" with
    | (.error err, _) => .error err
    | (.ok player, mem) =>
      .ok { window := win, player := player, enemies := Slice.make0, bullets := Slice.make0,
            score := 0, level := 1, fps := 60, lastTime := 0, mem := mem }

/-- The loop of `removeEnemy`, at index `i` with `rest` still to be visited. -/
def removeEnemyLoop (extra : Nat) (enemies : Slice) (enemy : Ptr) : List Ptr → Nat → Slice
  | [], _ => enemies
  | e :: rest, i =>
    if e = enemy then append extra (enemies.upTo i) (enemies.after (i + 1))
    else removeEnemyLoop extra enemies enemy rest (i + 1)

/-- The function `removeEnemy`. -/
def removeEnemy (extra : Nat) (enemies : Slice) (enemy : Ptr) : Slice :=
  removeEnemyLoop extra enemies enemy enemies.elems 0

/-- The method `spawnEnemy`. -/
def spawnEnemy (x : Ext) (g : GamePrototype) : GamePrototype :=
  match loadSprite x g.mem "enemy.png" with
  | (.error _, _) => g
  | (.ok enemy, mem) =>
    { g with
      mem := mem.setPos enemy (V (Intn x.randX 1024) (Intn x.randY 768))
      enemies := append x.extra g.enemies [enemy] }

/-- The first statement of `update`: the player follows the pointer. -/
def movePlayer (x : Ext) (g : GamePrototype) : GamePrototype :=
  { g with mem := g.mem.setPos g.player x.MousePosition }

/-- The enemy loop of `update`, the `k`-th iteration reading the clock. -/
def driftEnemies (x : Ext) (lastTime : ℚ) : List Ptr → Nat → Heap → Heap
  | [], _, mem => mem
  | enemy :: rest, k, mem =>
    driftEnemies x lastTime rest (k + 1)
      (mem.setPos enemy ((mem enemy).Pos.Add x.fadd (V (x.Sin (lastTime - x.clock k)) 0)))

/-- The bullet loop of `update`. -/
def moveBullets (x : Ext) : List Ptr → Heap → Heap
  | [], mem => mem
  | bullet :: rest, mem =>
    moveBullets x rest (mem.setPos bullet ((mem bullet).Pos.Add x.fadd (V 0 10)))

/-- The three position updates of `update`, before the collision loop. -/
def movePass (x : Ext) (g : GamePrototype) : GamePrototype :=
  let g1 := movePlayer x g
  let mem2 := driftEnemies x g1.lastTime g1.enemies.elems 0 g1.mem
  { g1 with mem := moveBullets x g1.bullets.elems mem2 }

/-- The condition of the collision loop for the enemy `enemy`. -/
def hits (x : Ext) (g : GamePrototype) (enemy : Ptr) : Bool :=
  x.Intersect (x.Frame (g.mem g.player)) (x.Frame (g.mem enemy))

/-- The collision loop of `update`: `todo` iterations from index `i` on.  The
index runs over the length the slice had when the loop started, and each
iteration reads cell `i` of the backing array as it is then.  The array of
`g.enemies` is that array throughout: `removeEnemy` appends within capacity
(`removeEnemy_cap`), so it never moves the slice to a new array. -/
def collisionLoop (x : Ext) : Nat → Nat → GamePrototype → GamePrototype
  | 0, _, g => g
  | todo + 1, i, g =>
    let enemy := g.enemies.arr.getD i nilPtr
    if hits x g enemy then
      collisionLoop x todo (i + 1)
        { g with score := g.score + 1, enemies := removeEnemy x.extra g.enemies enemy }
    else collisionLoop x todo (i + 1) g

/-- The collision loop of `update`, whole. -/
def collisionPass (x : Ext) (g : GamePrototype) : GamePrototype :=
  collisionLoop x g.enemies.len 0 g

/-- The spawn step of `update`. -/
def spawnStep (x : Ext) (g : GamePrototype) : GamePrototype :=
  if (g.enemies.len : Int) < g.level then spawnEnemy x g else g

/-- The method `update`; the last clock reading follows one reading per enemy. -/
def update (x : Ext) (dt : ℚ) (g : GamePrototype) : GamePrototype :=
  let _ := dt
  { spawnStep x (collisionPass x (movePass x g)) with lastTime := x.clock g.enemies.len }

/-- The method `draw`. -/
def draw (g : GamePrototype) : GamePrototype :=
  { g with
    window :=
      { title := "FPS: " ++ toString g.fps ++ " | Score: " ++ toString g.score
          ++ " | Level: " ++ toString g.level
        drawn := g.window.drawn ++ [g.player] ++ g.enemies.elems ++ g.bullets.elems } }

/-! ## Notions the properties are stated with -/

/-- The enemies on which the collision loop performs a removal: the loop of
`collisionLoop` again, collecting each enemy that is hit and that `removeEnemy`
finds in the slice. -/
def collisionRemoved (x : Ext) : Nat → Nat → GamePrototype → List Ptr
  | 0, _, _ => []
  | todo + 1, i, g =>
    let enemy := g.enemies.arr.getD i nilPtr
    if hits x g enemy then
      (if enemy ∈ g.enemies.elems then [enemy] else [])
        ++ collisionRemoved x todo (i + 1)
            { g with score := g.score + 1, enemies := removeEnemy x.extra g.enemies enemy }
    else collisionRemoved x todo (i + 1) g

/-- The enemies on which the collision loop of `update x dt g` performs a
removal. -/
def updateRemoved (x : Ext) (g : GamePrototype) : List Ptr :=
  collisionRemoved x (movePass x g).enemies.len 0 (movePass x g)

/-- The states of a run: the state `NewGamePrototype` builds, and the states
`update` and `draw` lead to from there. -/
inductive Reachable : GamePrototype → Prop
  | start (x : Ext) (winTitle : String) (g : GamePrototype) :
      NewGamePrototype x winTitle = .ok g → Reachable g
  | update (x : Ext) (dt : ℚ) (g : GamePrototype) : Reachable g → Reachable (update x dt g)
  | draw (g : GamePrototype) : Reachable g → Reachable (draw g)

/-! ## Concrete inputs -/

/-- A library answer: the frame of a sprite is the frame it was created with,
moved to its position. -/
def frameAtPos (s : Sprite) : Rect :=
  ⟨V (s.frame.Min.X + s.Pos.X) (s.frame.Min.Y + s.Pos.Y),
    V (s.frame.Max.X + s.Pos.X) (s.frame.Max.Y + s.Pos.Y)⟩

/-- A library answer: two rectangles overlap. -/
def overlaps (r s : Rect) : Bool :=
  decide (r.Min.X < s.Max.X) && decide (s.Min.X < r.Max.X)
    && decide (r.Min.Y < s.Max.Y) && decide (s.Min.Y < r.Max.Y)

/-- An outside world: the loader succeeds with a 32 by 32 picture, the new
sprite is put at address `p`, the pointer is at the origin, and sums are exact
(as they are in `float64` on the small integers used below). -/
def extOk (p : Ptr) (rx ry : Nat) : Ext where
  Frame := frameAtPos
  Intersect := overlaps
  NewWindow := fun cfg => .ok ⟨cfg.Title, []⟩
  LoadPicture := fun _ => .ok (R 0 0 32 32)
  alloc := p
  MousePosition := V 0 0
  Sin := fun _ => 0
  clock := fun k => k
  randX := rx
  randY := ry
  extra := 1
  fadd := fun a b => a + b

/-- An outside world in which the pointer is at `(500, 500)`. -/
def extPointerAway : Ext :=
  { extOk 20 0 0 with MousePosition := V 500 500 }

/-- An outside world in which the picture loader fails. -/
def extFail : Ext :=
  { extOk 0 0 0 with LoadPicture := fun _ => .error "open enemy.png: no such file" }

/-- A memory of 32 by 32 sprites: the sprites of `ps` lie at the origin, any
other sprite `p` at `(100 * p, 0)`. -/
def memHit (ps : List Ptr) : Heap :=
  fun p => if p ∈ ps then ⟨V 0 0, R 0 0 32 32⟩ else ⟨V (100 * p) 0, R 0 0 32 32⟩

/-- A state with the sprite `10` as player, the given enemies and bullets, and
score `0`. -/
def stateOf (enemies bullets : List Ptr) (level : Int) (mem : Heap) : GamePrototype :=
  { window := ⟨"", []⟩, player := 10, enemies := ⟨enemies, []⟩, bullets := ⟨bullets, []⟩,
    score := 0, level := level, fps := 60, lastTime := 0, mem := mem }

/-- A state whose one enemy `1` lies exactly on the player `10`: both are 32 by
32 sprites at the origin. -/
def overlapState : GamePrototype :=
  stateOf [1] [] 1 (memHit [1, 10])

/-- The state `NewGamePrototype` builds in the world `extOk 10 0 0`. -/
def startState : GamePrototype :=
  { window := ⟨"game", []⟩, player := 10, enemies := Slice.make0, bullets := Slice.make0,
    score := 0, level := 1, fps := 60, lastTime := 0,
    mem := Heap.set (fun _ => ⟨V 0 0, R 0 0 0 0⟩) 10 ⟨V 0 0, R 0 0 32 32⟩ }


/-! ## Slices: what `removeEnemy` does to the backing array -/

theorem removeEnemyLoop_not_mem (extra : Nat) (s : Slice) (e : Ptr) :
    ∀ (rest : List Ptr) (i : Nat), e ∉ rest → removeEnemyLoop extra s e rest i = s := by
  intro rest
  induction rest with
  | nil => intro i _; rfl
  | cons a rest ih =>
    intro i h
    have ha : a ≠ e := fun hae => h (by simp [hae])
    have hr : e ∉ rest := fun hm => h (List.mem_cons_of_mem _ hm)
    simp [removeEnemyLoop, ha, ih (i + 1) hr]

theorem removeEnemyLoop_found (extra : Nat) (s : Slice) (e : Ptr) (post : List Ptr) :
    ∀ (mid : List Ptr) (i : Nat), e ∉ mid →
      removeEnemyLoop extra s e (mid ++ e :: post) i
        = append extra (s.upTo (i + mid.length)) (s.after (i + mid.length + 1)) := by
  intro mid
  induction mid with
  | nil => intro i _; simp [removeEnemyLoop]
  | cons a mid ih =>
    intro i h
    have ha : a ≠ e := fun hae => h (by simp [hae])
    have hr : e ∉ mid := fun hm => h (List.mem_cons_of_mem _ hm)
    have e1 : i + 1 + mid.length = i + (mid.length + 1) := by omega
    have h2 := ih (i + 1) hr
    rw [e1] at h2
    show removeEnemyLoop extra s e (a :: (mid ++ e :: post)) i = _
    simp only [removeEnemyLoop, if_neg ha, List.length_cons]
    exact h2

/-- Removing the enemy `e` from `pre ++ e :: post` shifts `post` one cell down
in the same array; the cell the last element came from keeps its content. -/
theorem removeEnemy_split (extra : Nat) (pre post spare : List Ptr) (e : Ptr) (h : e ∉ pre) :
    removeEnemy extra ⟨pre ++ e :: post, spare⟩ e
      = ⟨pre ++ post, (e :: (post ++ spare)).drop post.length⟩ := by
  unfold removeEnemy
  simp only []
  rw [removeEnemyLoop_found extra _ e post pre 0 h]
  simp [append, Slice.upTo, Slice.after, Slice.arr, Slice.len, Slice.cap]
  omega

theorem removeEnemy_not_mem (extra : Nat) (s : Slice) (e : Ptr) (h : e ∉ s.elems) :
    removeEnemy extra s e = s :=
  removeEnemyLoop_not_mem extra s e s.elems 0 h

/-- The visible elements after `removeEnemy`: the first occurrence is erased. -/
theorem removeEnemy_elems (extra : Nat) (s : Slice) (e : Ptr) :
    (removeEnemy extra s e).elems = s.elems.erase e := by
  by_cases h : e ∈ s.elems
  · obtain ⟨pre, post, hpre, hsplit, herase⟩ := List.exists_erase_eq h
    obtain ⟨elems, spare⟩ := s
    simp only at hsplit herase h ⊢
    subst hsplit
    rw [removeEnemy_split extra pre post spare e hpre, herase]
  · rw [removeEnemy_not_mem extra s e h, List.erase_of_not_mem h]

/-- The function `removeEnemy` never leaves the backing array. -/
theorem removeEnemy_cap (extra : Nat) (s : Slice) (e : Ptr) :
    (removeEnemy extra s e).cap = s.cap := by
  by_cases h : e ∈ s.elems
  · obtain ⟨pre, post, hpre, hsplit, -⟩ := List.exists_erase_eq h
    obtain ⟨elems, spare⟩ := s
    simp only at hsplit h ⊢
    subst hsplit
    rw [removeEnemy_split extra pre post spare e hpre]
    simp [Slice.cap, Slice.arr]
    omega
  · rw [removeEnemy_not_mem extra s e h]


/-! ## The collision loop: what it leaves alone -/

/-- The loop condition only reads the player and the memory. -/
theorem hits_congr (x : Ext) (g g' : GamePrototype) (hm : g'.mem = g.mem)
    (hp : g'.player = g.player) (e : Ptr) : hits x g' e = hits x g e := by
  simp [hits, hm, hp]

/-- The collision loop changes the score and the enemies only. -/
theorem collisionLoop_frame (x : Ext) :
    ∀ (todo i : Nat) (g : GamePrototype),
      (collisionLoop x todo i g).mem = g.mem ∧ (collisionLoop x todo i g).player = g.player
      ∧ (collisionLoop x todo i g).level = g.level
      ∧ (collisionLoop x todo i g).bullets = g.bullets
      ∧ (collisionLoop x todo i g).window = g.window
      ∧ (collisionLoop x todo i g).fps = g.fps
      ∧ (collisionLoop x todo i g).lastTime = g.lastTime := by
  intro todo
  induction todo with
  | zero => intro i g; simp [collisionLoop]
  | succ todo ih =>
    intro i g
    simp only [collisionLoop]
    split
    · simpa using ih (i + 1) _
    · exact ih (i + 1) g

/-- The collision loop never lowers the score. -/
theorem collisionLoop_score_le (x : Ext) :
    ∀ (todo i : Nat) (g : GamePrototype), g.score ≤ (collisionLoop x todo i g).score := by
  intro todo
  induction todo with
  | zero => intro i g; simp [collisionLoop]
  | succ todo ih =>
    intro i g
    simp only [collisionLoop]
    split
    · have := ih (i + 1)
        { g with score := g.score + 1
                 enemies := removeEnemy x.extra g.enemies (g.enemies.arr.getD i nilPtr) }
      simp only at this
      omega
    · exact ih (i + 1) g

/-- The collision loop raises the score by at most one per iteration. -/
theorem collisionLoop_score_le_add (x : Ext) :
    ∀ (todo i : Nat) (g : GamePrototype), (collisionLoop x todo i g).score ≤ g.score + todo := by
  intro todo
  induction todo with
  | zero => intro i g; simp [collisionLoop]
  | succ todo ih =>
    intro i g
    simp only [collisionLoop]
    split
    · have := ih (i + 1)
        { g with score := g.score + 1
                 enemies := removeEnemy x.extra g.enemies (g.enemies.arr.getD i nilPtr) }
      simp only at this
      push_cast
      omega
    · have := ih (i + 1) g
      push_cast
      omega

/-- The enemies after the collision loop are enemies from before it, in the
same order. -/
theorem collisionLoop_sublist (x : Ext) :
    ∀ (todo i : Nat) (g : GamePrototype),
      (collisionLoop x todo i g).enemies.elems.Sublist g.enemies.elems := by
  intro todo
  induction todo with
  | zero => intro i g; simp [collisionLoop]
  | succ todo ih =>
    intro i g
    simp only [collisionLoop]
    split
    · refine (ih (i + 1) _).trans ?_
      simp only [removeEnemy_elems]
      exact List.erase_sublist _ _
    · exact ih (i + 1) g

theorem collisionPass_len_le (x : Ext) (g : GamePrototype) :
    (collisionPass x g).enemies.len ≤ g.enemies.len :=
  (collisionLoop_sublist x _ 0 g).length_le

/-! ## The position updates and the spawn step: what they leave alone -/

theorem movePass_fields (x : Ext) (g : GamePrototype) :
    (movePass x g).enemies = g.enemies ∧ (movePass x g).bullets = g.bullets
    ∧ (movePass x g).score = g.score ∧ (movePass x g).level = g.level
    ∧ (movePass x g).player = g.player ∧ (movePass x g).window = g.window
    ∧ (movePass x g).fps = g.fps ∧ (movePass x g).lastTime = g.lastTime := by
  simp [movePass, movePlayer]

/-- The two outcomes of `spawnEnemy`. -/
theorem spawnEnemy_cases (x : Ext) (g : GamePrototype) :
    (∃ err, x.LoadPicture "enemy.png" = .error err ∧ spawnEnemy x g = g)
    ∨ (∃ bounds, x.LoadPicture "enemy.png" = .ok bounds ∧
        spawnEnemy x g =
          { g with
            mem := (g.mem.set x.alloc ⟨V 0 0, bounds⟩).setPos x.alloc
                     (V (Intn x.randX 1024) (Intn x.randY 768))
            enemies := append x.extra g.enemies [x.alloc] }) := by
  cases h : x.LoadPicture "enemy.png" with
  | error err => left; exact ⟨err, rfl, by simp [spawnEnemy, loadSprite, h]⟩
  | ok bounds => right; exact ⟨bounds, rfl, by simp [spawnEnemy, loadSprite, h]⟩

/-- Appending one element adds it after the visible elements, whichever array
the result lives in. -/
theorem append_elems (extra : Nat) (s : Slice) (xs : List Ptr) :
    (append extra s xs).elems = s.elems ++ xs := by
  unfold append
  split <;> rfl

theorem spawnEnemy_fields (x : Ext) (g : GamePrototype) :
    (spawnEnemy x g).score = g.score ∧ (spawnEnemy x g).level = g.level
    ∧ (spawnEnemy x g).bullets = g.bullets ∧ (spawnEnemy x g).player = g.player
    ∧ (spawnEnemy x g).window = g.window ∧ (spawnEnemy x g).fps = g.fps
    ∧ (spawnEnemy x g).lastTime = g.lastTime := by
  rcases spawnEnemy_cases x g with ⟨_, _, h⟩ | ⟨_, _, h⟩ <;> simp [h]

theorem spawnEnemy_elems (x : Ext) (g : GamePrototype) :
    (spawnEnemy x g).enemies.elems = g.enemies.elems
    ∨ (spawnEnemy x g).enemies.elems = g.enemies.elems ++ [x.alloc] := by
  rcases spawnEnemy_cases x g with ⟨_, _, h⟩ | ⟨_, _, h⟩
  · left; rw [h]
  · right; rw [h]; exact append_elems _ _ _

theorem spawnStep_fields (x : Ext) (g : GamePrototype) :
    (spawnStep x g).score = g.score ∧ (spawnStep x g).level = g.level
    ∧ (spawnStep x g).bullets = g.bullets ∧ (spawnStep x g).player = g.player
    ∧ (spawnStep x g).window = g.window ∧ (spawnStep x g).fps = g.fps
    ∧ (spawnStep x g).lastTime = g.lastTime := by
  unfold spawnStep
  split
  · exact spawnEnemy_fields x g
  · simp

theorem spawnStep_elems (x : Ext) (g : GamePrototype) :
    (spawnStep x g).enemies.elems = g.enemies.elems
    ∨ ((g.enemies.len : Int) < g.level
        ∧ (spawnStep x g).enemies.elems = g.enemies.elems ++ [x.alloc]) := by
  unfold spawnStep
  split
  · rename_i h
    rcases spawnEnemy_elems x g with h' | h'
    · left; exact h'
    · right; exact ⟨h, h'⟩
  · left; rfl

/-- The fields of the state after `update`, in terms of its three passes. -/
theorem update_fields (x : Ext) (dt : ℚ) (g : GamePrototype) :
    (update x dt g).score = (collisionPass x (movePass x g)).score
    ∧ (update x dt g).level = g.level
    ∧ (update x dt g).bullets = g.bullets
    ∧ (update x dt g).player = g.player
    ∧ (update x dt g).enemies = (spawnStep x (collisionPass x (movePass x g))).enemies
    ∧ (update x dt g).mem = (spawnStep x (collisionPass x (movePass x g))).mem := by
  have hs := spawnStep_fields x (collisionPass x (movePass x g))
  have hc := collisionLoop_frame x (movePass x g).enemies.len 0 (movePass x g)
  have hm := movePass_fields x g
  have hc' : (collisionPass x (movePass x g)).level = (movePass x g).level
      ∧ (collisionPass x (movePass x g)).bullets = (movePass x g).bullets
      ∧ (collisionPass x (movePass x g)).player = (movePass x g).player :=
    ⟨hc.2.2.1, hc.2.2.2.1, hc.2.1⟩
  refine ⟨hs.1, ?_, ?_, ?_, rfl, rfl⟩
  · show (spawnStep x (collisionPass x (movePass x g))).level = g.level
    rw [hs.2.1, hc'.1, hm.2.2.2.1]
  · show (spawnStep x (collisionPass x (movePass x g))).bullets = g.bullets
    rw [hs.2.2.1, hc'.2.1, hm.2.1]
  · show (spawnStep x (collisionPass x (movePass x g))).player = g.player
    rw [hs.2.2.2.1, hc'.2.2, hm.2.2.2.2.1]


/-! ## The collision loop: iterations that hit nothing, and splitting the loop -/

/-- Iterations that read no intersecting enemy change nothing. -/
theorem collisionLoop_no_hit (x : Ext) :
    ∀ (todo i : Nat) (g : GamePrototype),
      (∀ m, i ≤ m → m < i + todo → hits x g (g.enemies.arr.getD m nilPtr) = false) →
      collisionLoop x todo i g = g := by
  intro todo
  induction todo with
  | zero => intro i g _; rfl
  | succ todo ih =>
    intro i g h
    have h0 : hits x g (g.enemies.arr.getD i nilPtr) = false := h i (le_refl _) (by omega)
    simp only [collisionLoop, h0]
    exact ih (i + 1) g (fun m hm1 hm2 => h m (by omega) (by omega))

/-- The first `a` iterations, then the remaining `b`. -/
theorem collisionLoop_add (x : Ext) :
    ∀ (a b i : Nat) (g : GamePrototype),
      collisionLoop x (a + b) i g = collisionLoop x b (i + a) (collisionLoop x a i g) := by
  intro a
  induction a with
  | zero => intro b i g; simp [collisionLoop]
  | succ a ih =>
    intro b i g
    have e1 : a + 1 + b = (a + b) + 1 := by omega
    have e2 : i + (a + 1) = i + 1 + a := by omega
    rw [e1, e2]
    simp only [collisionLoop]
    split
    · exact ih b (i + 1) _
    · exact ih b (i + 1) g

/-- After `e` was removed from `pre ++ e :: post`, the cells the loop has still
to read hold elements of `post`: the shifted ones, and the last one once more
in the cell it came from. -/
theorem read_after_removal (pre post spare : List Ptr) (e : Ptr) (m : Nat)
    (h1 : pre.length + 1 ≤ m) (h2 : m < pre.length + 1 + post.length) :
    (pre ++ post ++ (e :: (post ++ spare)).drop post.length).getD m nilPtr ∈ post := by
  rw [List.getD_eq_getElem?_getD, List.append_assoc, List.getElem?_append_right (by omega)]
  by_cases hk : m - pre.length < post.length
  · rw [List.getElem?_append_left hk, List.getElem?_eq_getElem hk]
    exact List.getElem_mem _
  · have hm : m - pre.length = post.length := by omega
    have hp : post.length - 1 < post.length := by omega
    rw [List.getElem?_append_right (by omega), List.getElem?_drop, hm]
    have e3 : post.length + (post.length - post.length) = (post.length - 1) + 1 := by omega
    rw [e3, List.getElem?_cons_succ, List.getElem?_append_left hp, List.getElem?_eq_getElem hp]
    exact List.getElem_mem _

/-- Before any removal the loop reads the elements of the slice in order. -/
theorem read_before_removal (pre rest : List Ptr) (m : Nat) (h : m < pre.length) :
    (pre ++ rest).getD m nilPtr ∈ pre := by
  rw [List.getD_eq_getElem?_getD, List.getElem?_append_left h, List.getElem?_eq_getElem h]
  exact List.getElem_mem _

/-- The collision loop over `pre ++ e :: post` when `e` is the one enemy that
intersects the player: one point, and `e` removed. -/
theorem collisionPass_single (x : Ext) (g : GamePrototype) (pre post : List Ptr) (e : Ptr)
    (hsplit : g.enemies.elems = pre ++ e :: post)
    (hpre : ∀ a ∈ pre, hits x g a = false) (hpost : ∀ a ∈ post, hits x g a = false)
    (he : hits x g e = true) (hne : e ∉ pre) :
    (collisionPass x g).score = g.score + 1
    ∧ (collisionPass x g).enemies.elems = pre ++ post := by
  obtain ⟨window, player, ⟨elems, spare⟩, bullets, score, level, fps, lastTime, mem⟩ := g
  simp only at hsplit
  subst hsplit
  have hlen : (pre ++ e :: post).length = pre.length + (post.length + 1) := by simp
  simp only [collisionPass, Slice.len, hlen]
  rw [collisionLoop_add]
  rw [collisionLoop_no_hit x pre.length 0]
  · simp only [collisionLoop, Nat.zero_add]
    have hread : (Slice.arr ⟨pre ++ e :: post, spare⟩).getD pre.length nilPtr = e := by
      simp only [Slice.arr, List.append_assoc]
      rw [List.getD_eq_getElem?_getD, List.getElem?_append_right (le_refl _)]
      simp
    rw [hread, if_pos he, removeEnemy_split _ _ _ _ _ hne]
    rw [collisionLoop_no_hit]
    · exact ⟨rfl, rfl⟩
    · intro m hm1 hm2
      exact hpost _ (read_after_removal pre post spare e m hm1 (by omega))
  · intro m _ hm2
    apply hpre
    simp only [Slice.arr, List.append_assoc]
    exact read_before_removal pre _ m (by omega)


/-! ## The collision loop: an enemy it removes stays removed -/

theorem collisionRemoved_spec (x : Ext) :
    ∀ (todo i : Nat) (g : GamePrototype), g.enemies.elems.Nodup →
      ∀ e ∈ collisionRemoved x todo i g,
        e ∈ g.enemies.elems ∧ e ∉ (collisionLoop x todo i g).enemies.elems := by
  intro todo
  induction todo with
  | zero => intro i g _ e he; simp [collisionRemoved] at he
  | succ todo ih =>
    intro i g hnd e he
    simp only [collisionRemoved] at he
    simp only [collisionLoop]
    split at he
    · rename_i hhit
      rw [if_pos hhit]
      have hsub := collisionLoop_sublist x todo (i + 1)
        { g with score := g.score + 1
                 enemies := removeEnemy x.extra g.enemies (g.enemies.arr.getD i nilPtr) }
      simp only [removeEnemy_elems] at hsub
      rcases List.mem_append.mp he with h1 | h2
      · split at h1
        · rename_i hin
          have hee : e = g.enemies.arr.getD i nilPtr := by simpa using h1
          subst hee
          refine ⟨hin, fun hfin => ?_⟩
          have := hsub.subset hfin
          exact ((List.Nodup.mem_erase_iff hnd).mp this).1 rfl
        · simp at h1
      · have hnd' : (removeEnemy x.extra g.enemies (g.enemies.arr.getD i nilPtr)).elems.Nodup := by
          rw [removeEnemy_elems]; exact hnd.erase _
        obtain ⟨hin, hout⟩ := ih (i + 1) _ hnd' e h2
        simp only [removeEnemy_elems] at hin
        exact ⟨List.mem_of_mem_erase hin, hout⟩
    · rename_i hhit
      rw [if_neg hhit]
      exact ih (i + 1) g hnd e he

/-! ## Memory: which sprites the position updates and the spawn write to -/

theorem set_ne (h : Heap) (p q : Ptr) (s : Sprite) (hq : q ≠ p) : h.set p s q = h q := by
  simp [Heap.set, hq]

theorem setPos_ne (h : Heap) (p q : Ptr) (v : Vec) (hq : q ≠ p) : h.setPos p v q = h q := by
  simp [Heap.setPos, Heap.set, hq]

theorem setPos_self (h : Heap) (p : Ptr) (v : Vec) :
    h.setPos p v p = { h p with Pos := v } := by
  simp [Heap.setPos, Heap.set]

theorem driftEnemies_ne (x : Ext) (t : ℚ) (q : Ptr) :
    ∀ (l : List Ptr) (k : Nat) (mem : Heap), q ∉ l → driftEnemies x t l k mem q = mem q := by
  intro l
  induction l with
  | nil => intro k mem _; rfl
  | cons a l ih =>
    intro k mem h
    have ha : q ≠ a := fun hqa => h (by simp [hqa])
    have hl : q ∉ l := fun hm => h (List.mem_cons_of_mem _ hm)
    simp only [driftEnemies]
    rw [ih _ _ hl, setPos_ne _ _ _ _ ha]

theorem moveBullets_ne (x : Ext) (q : Ptr) :
    ∀ (l : List Ptr) (mem : Heap), q ∉ l → moveBullets x l mem q = mem q := by
  intro l
  induction l with
  | nil => intro mem _; rfl
  | cons a l ih =>
    intro mem h
    have ha : q ≠ a := fun hqa => h (by simp [hqa])
    have hl : q ∉ l := fun hm => h (List.mem_cons_of_mem _ hm)
    simp only [moveBullets]
    rw [ih _ hl, setPos_ne _ _ _ _ ha]

/-- A bullet listed once is moved once. -/
theorem moveBullets_mem (x : Ext) (b : Ptr) :
    ∀ (l : List Ptr) (mem : Heap), l.Nodup → b ∈ l →
      moveBullets x l mem b = { mem b with Pos := (mem b).Pos.Add x.fadd (V 0 10) } := by
  intro l
  induction l with
  | nil => intro mem _ h; simp at h
  | cons a l ih =>
    intro mem hnd h
    obtain ⟨hal, hndl⟩ := List.nodup_cons.mp hnd
    simp only [moveBullets]
    rcases List.mem_cons.mp h with hba | hbl
    · subst hba
      rw [moveBullets_ne x _ _ _ hal, setPos_self]
    · have hne : b ≠ a := fun hba => hal (hba ▸ hbl)
      rw [ih _ hndl hbl, setPos_ne _ _ _ _ hne]

theorem spawnStep_mem_ne (x : Ext) (g : GamePrototype) (q : Ptr) (hq : q ≠ x.alloc) :
    (spawnStep x g).mem q = g.mem q := by
  unfold spawnStep
  split
  · rcases spawnEnemy_cases x g with ⟨_, _, h⟩ | ⟨_, _, h⟩
    · rw [h]
    · rw [h]
      simp only
      rw [setPos_ne _ _ _ _ hq, set_ne _ _ _ _ hq]
  · rfl

/-! ## The spawn step and the first state -/

/-- The state `spawnEnemy` returns when the picture loads. -/
theorem spawnEnemy_of_ok (x : Ext) (g : GamePrototype) (bounds : Rect)
    (h : x.LoadPicture "enemy.png" = .ok bounds) :
    spawnEnemy x g =
      { g with
        mem := (g.mem.set x.alloc ⟨V 0 0, bounds⟩).setPos x.alloc
                 (V (Intn x.randX 1024) (Intn x.randY 768))
        enemies := append x.extra g.enemies [x.alloc] } := by
  simp [spawnEnemy, loadSprite, h]

/-- The level the spawn step compares with is the level `update` started with. -/
theorem collisionPass_level (x : Ext) (g : GamePrototype) :
    (collisionPass x (movePass x g)).level = g.level :=
  ((collisionLoop_frame x _ 0 (movePass x g)).2.2.1).trans (movePass_fields x g).2.2.2.1

/-- The function `update` keeps the enemy count within the level. -/
theorem update_len_le_level (x : Ext) (dt : ℚ) (g : GamePrototype)
    (h : (g.enemies.len : Int) ≤ g.level) :
    ((update x dt g).enemies.len : Int) ≤ (update x dt g).level := by
  obtain ⟨-, hlev, -, -, hen, -⟩ := update_fields x dt g
  have hc := collisionPass_len_le x (movePass x g)
  have hcl := collisionPass_level x g
  rw [(movePass_fields x g).1] at hc
  rw [hlev, hen]
  rcases spawnStep_elems x (collisionPass x (movePass x g)) with h1 | ⟨hlt, h1⟩
  · simp only [Slice.len] at *
    rw [h1]
    omega
  · simp only [Slice.len] at *
    rw [h1, List.length_append, List.length_singleton]
    rw [hcl] at hlt
    push_cast
    omega

/-- The state `NewGamePrototype` builds. -/
theorem NewGamePrototype_ok (x : Ext) (winTitle : String) (g : GamePrototype)
    (h : NewGamePrototype x winTitle = .ok g) :
    g.enemies = Slice.make0 ∧ g.bullets = Slice.make0 ∧ g.level = 1 ∧ g.score = 0 := by
  unfold NewGamePrototype at h
  split at h
  · cases h
  · split at h
    · cases h
    · cases h
      exact ⟨rfl, rfl, rfl, rfl⟩

/-! ## The bullets -/

/-- The function `update` returns the bullet slice it received: same bullets,
same order. -/
theorem update_keeps_bullets (x : Ext) (dt : ℚ) (g : GamePrototype) :
    (update x dt g).bullets = g.bullets :=
  (update_fields x dt g).2.2.1

/-- The function `update` does not read the elapsed time it is passed. -/
theorem update_ignores_dt (x : Ext) (dt dt' : ℚ) (g : GamePrototype) :
    update x dt' g = update x dt g :=
  rfl

/-- A bullet that is a sprite of its own (listed once, neither the player nor
an enemy nor the sprite a spawn allocates) ends at the `float64` sum of its
position and `(0, 10)`. -/
theorem update_bullet_step (x : Ext) (dt : ℚ) (g : GamePrototype)
    (hnd : g.bullets.elems.Nodup) (hpl : g.player ∉ g.bullets.elems)
    (hen : ∀ b ∈ g.bullets.elems, b ∉ g.enemies.elems)
    (hnew : x.alloc ∉ g.bullets.elems) :
    ∀ b ∈ g.bullets.elems,
      (update x dt g).mem b = { g.mem b with Pos := (g.mem b).Pos.Add x.fadd (V 0 10) } := by
  intro b hb
  have hba : b ≠ x.alloc := fun h => hnew (h ▸ hb)
  have hbp : b ≠ g.player := fun h => hpl (h ▸ hb)
  have h1 : (update x dt g).mem b = (collisionPass x (movePass x g)).mem b :=
    spawnStep_mem_ne x _ b hba
  have h2 : (collisionPass x (movePass x g)).mem = (movePass x g).mem :=
    (collisionLoop_frame x _ 0 (movePass x g)).1
  rw [h1, h2]
  simp only [movePass, movePlayer]
  rw [moveBullets_mem x b _ _ hnd hb, driftEnemies_ne x _ b _ _ _ (hen b hb),
    setPos_ne _ _ _ _ hbp]

/-! ## The claims -/

/-- C1, evaluated where the code departs from it.  With three distinct enemies
`1, 2, 3` of which `1` and `2` intersect the player, the collision pass of
`update` scores one point instead of two and leaves the intersecting enemy `2`
in the collection: after `1` is removed, `2` sits in the cell the loop has
already read.  With `1` and `3` intersecting, the pass removes both but scores
three points: the last cell still holds `3` when the loop reads it again. -/
theorem collision_pass_skips_and_recounts :
    ((stateOf [1, 2, 3] [] 3 (memHit [1, 2])).enemies.elems.Nodup
      ∧ (stateOf [1, 2, 3] [] 3 (memHit [1, 2])).enemies.elems.filter
          (hits (extOk 20 0 0) (movePass (extOk 20 0 0) (stateOf [1, 2, 3] [] 3 (memHit [1, 2]))))
          = [1, 2]
      ∧ (collisionPass (extOk 20 0 0)
          (movePass (extOk 20 0 0) (stateOf [1, 2, 3] [] 3 (memHit [1, 2])))).score = 0 + 1
      ∧ (collisionPass (extOk 20 0 0)
          (movePass (extOk 20 0 0) (stateOf [1, 2, 3] [] 3 (memHit [1, 2])))).enemies.elems
          = [2, 3])
    ∧ ((stateOf [1, 2, 3] [] 3 (memHit [1, 3])).enemies.elems.filter
          (hits (extOk 20 0 0) (movePass (extOk 20 0 0) (stateOf [1, 2, 3] [] 3 (memHit [1, 3]))))
          = [1, 3]
      ∧ (collisionPass (extOk 20 0 0)
          (movePass (extOk 20 0 0) (stateOf [1, 2, 3] [] 3 (memHit [1, 3])))).score = 0 + 3
      ∧ (collisionPass (extOk 20 0 0)
          (movePass (extOk 20 0 0) (stateOf [1, 2, 3] [] 3 (memHit [1, 3])))).enemies.elems
          = [2]) := by
  refine ⟨⟨?_, ?_, ?_, ?_⟩, ?_, ?_, ?_⟩ <;> with_unfolding_all decide

/-- C2.  The enemy count never exceeds the level: `NewGamePrototype` succeeds
whenever the window and the player picture are obtained, the state it builds
has no enemy and level 1, and `update` keeps `enemy count ≤ level`, whatever
the pointer position and whether the loader succeeds or fails. -/
theorem enemy_count_le_level :
    (∀ (x : Ext) (winTitle : String) (win : Window) (bounds : Rect),
        x.NewWindow ⟨winTitle, R 0 0 1024 768, true⟩ = .ok win →
        x.LoadPicture "player.png" = .ok bounds →
        ∃ g, NewGamePrototype x winTitle = .ok g)
    ∧ (∀ (x : Ext) (winTitle : String) (g : GamePrototype),
        NewGamePrototype x winTitle = .ok g →
        g.enemies.elems = [] ∧ g.level = 1 ∧ (g.enemies.len : Int) ≤ g.level)
    ∧ (∀ (x : Ext) (dt : ℚ) (g : GamePrototype),
        (g.enemies.len : Int) ≤ g.level →
        ((update x dt g).enemies.len : Int) ≤ (update x dt g).level) := by
  refine ⟨?_, ?_, ?_⟩
  · intro x winTitle win bounds hw hp
    simp [NewGamePrototype, loadSprite, hw, hp]
  · intro x winTitle g h
    obtain ⟨he, -, hl, -⟩ := NewGamePrototype_ok x winTitle g h
    simp [he, hl, Slice.make0, Slice.len]
  · exact update_len_le_level

theorem enemy_count_le_level_witness :
    NewGamePrototype (extOk 10 0 0) "game" = .ok startState
    ∧ ((startState.enemies.len : Int) ≤ startState.level)
    ∧ ((update (extOk 20 5 7) 0 startState).enemies.len : Int)
        ≤ (update (extOk 20 5 7) 0 startState).level :=
  ⟨rfl, (enemy_count_le_level.2.1 (extOk 10 0 0) "game" startState rfl).2.2,
    enemy_count_le_level.2.2 (extOk 20 5 7) 0 startState (by decide)⟩

/-- C3.  The score never decreases: the score after `update` is at least the
score before, for every state, elapsed time and outside world; `spawnEnemy`
and `draw` leave the score as it is. -/
theorem score_nondecreasing (x : Ext) (dt : ℚ) (g : GamePrototype) :
    g.score ≤ (update x dt g).score
    ∧ (spawnEnemy x g).score = g.score
    ∧ (draw g).score = g.score := by
  refine ⟨?_, (spawnEnemy_fields x g).1, rfl⟩
  rw [(update_fields x dt g).1]
  have := collisionLoop_score_le x (movePass x g).enemies.len 0 (movePass x g)
  rw [(movePass_fields x g).2.2.1] at this
  exact this

set_option maxRecDepth 8000 in
/-- C4 as stated fails: the frames are compared after `update` has moved the
player to the pointer.  In `overlapState` the one enemy lies exactly on the
player, and it is the one enemy whose frame intersects the player's; with the
pointer at `(500, 500)`, one `update` leaves the score as it was and the enemy
in the collection. -/
theorem overlap_before_move_scores_nothing :
    overlapState.enemies.elems.Nodup
    ∧ overlapState.mem 1 = overlapState.mem overlapState.player
    ∧ overlapState.enemies.elems.filter (hits extPointerAway overlapState) = [1]
    ∧ (update extPointerAway 0 overlapState).score = overlapState.score
    ∧ 1 ∈ (update extPointerAway 0 overlapState).enemies.elems := by
  refine ⟨?_, ?_, ?_, ?_, ?_⟩ <;> with_unfolding_all decide

/-- C4, amended.  In a state with pairwise distinct enemies of which exactly
one, `e`, has a frame intersecting the player's frame once `update` has moved
the player to the pointer and drifted the enemies (the positions the collision
loop compares), one `update` raises the score (an unbounded integer) by
exactly 1, `e` is no longer in the collection afterwards, and the other
enemies are still there in their order, followed at most by the enemy the
spawn step adds (a newly allocated sprite, so none of the old ones). -/
theorem single_collision (x : Ext) (dt : ℚ) (g : GamePrototype) (e : Ptr)
    (hnd : g.enemies.elems.Nodup) (he : e ∈ g.enemies.elems)
    (hhit : hits x (movePass x g) e = true)
    (hothers : ∀ a ∈ g.enemies.elems, a ≠ e → hits x (movePass x g) a = false)
    (hnew : x.alloc ∉ g.enemies.elems) :
    (update x dt g).score = g.score + 1
    ∧ e ∉ (update x dt g).enemies.elems
    ∧ ((update x dt g).enemies.elems = g.enemies.elems.erase e
        ∨ (update x dt g).enemies.elems = g.enemies.elems.erase e ++ [x.alloc]) := by
  obtain ⟨pre, post, hpre, hsplit, herase⟩ := List.exists_erase_eq he
  have hm := movePass_fields x g
  have hsplit' : (movePass x g).enemies.elems = pre ++ e :: post := by rw [hm.1, hsplit]
  have hnd' : (pre ++ e :: post).Nodup := hsplit ▸ hnd
  have hpost : e ∉ post := by
    have := (List.nodup_append.mp hnd').2.1
    exact (List.nodup_cons.mp this).1
  have h1 : ∀ a ∈ pre, hits x (movePass x g) a = false := fun a ha =>
    hothers a (by rw [hsplit]; simp [ha]) (fun hae => hpre (hae ▸ ha))
  have h2 : ∀ a ∈ post, hits x (movePass x g) a = false := fun a ha =>
    hothers a (by rw [hsplit]; simp [ha]) (fun hae => hpost (hae ▸ ha))
  obtain ⟨hscore, helems⟩ := collisionPass_single x (movePass x g) pre post e hsplit' h1 h2 hhit hpre
  obtain ⟨hus, -, -, -, hue, -⟩ := update_fields x dt g
  have hne : x.alloc ≠ e := fun h => hnew (h ▸ he)
  have hout : e ∉ pre ++ post := by
    simp only [List.mem_append, not_or]
    exact ⟨hpre, hpost⟩
  refine ⟨by rw [hus, hscore, hm.2.2.1], ?_, ?_⟩
  · rw [hue]
    rcases spawnStep_elems x (collisionPass x (movePass x g)) with h | ⟨-, h⟩
    · rw [h, helems]; exact hout
    · rw [h, helems]
      simp only [List.mem_append, List.mem_singleton, not_or]
      exact ⟨⟨hpre, hpost⟩, fun h => hne h.symm⟩
  · rw [hue, herase]
    rcases spawnStep_elems x (collisionPass x (movePass x g)) with h | ⟨-, h⟩
    · left; rw [h, helems]
    · right; rw [h, helems]

theorem single_collision_witness :
    (update (extOk 20 5 7) 0 (stateOf [2, 1, 3] [] 3 (memHit [1, 10]))).score
        = (stateOf [2, 1, 3] [] 3 (memHit [1, 10])).score + 1
    ∧ 1 ∉ (update (extOk 20 5 7) 0 (stateOf [2, 1, 3] [] 3 (memHit [1, 10]))).enemies.elems
    ∧ ((update (extOk 20 5 7) 0 (stateOf [2, 1, 3] [] 3 (memHit [1, 10]))).enemies.elems
          = (stateOf [2, 1, 3] [] 3 (memHit [1, 10])).enemies.elems.erase 1
        ∨ (update (extOk 20 5 7) 0 (stateOf [2, 1, 3] [] 3 (memHit [1, 10]))).enemies.elems
          = (stateOf [2, 1, 3] [] 3 (memHit [1, 10])).enemies.elems.erase 1 ++ [(extOk 20 5 7).alloc]) :=
  single_collision (extOk 20 5 7) 0 (stateOf [2, 1, 3] [] 3 (memHit [1, 10])) 1
    (by decide) (by decide) (by with_unfolding_all decide) (by with_unfolding_all decide)
    (by decide)

/-- C5.  When the picture loads, `spawnEnemy` appends exactly one new enemy at
the end of the collection: the count grows by 1, the enemies before it are the
same and in the same order, no other sprite is written to, and the new enemy
stands at integer coordinates `(a, b)` with `a < 1024` and `b < 768`, whatever
the random source draws; from no enemy the count becomes 1. -/
theorem spawnEnemy_appends_one (x : Ext) (g : GamePrototype) (bounds : Rect)
    (h : x.LoadPicture "enemy.png" = .ok bounds) :
    (spawnEnemy x g).enemies.elems = g.enemies.elems ++ [x.alloc]
    ∧ (spawnEnemy x g).enemies.len = g.enemies.len + 1
    ∧ (∃ a b : Nat, a < 1024 ∧ b < 768 ∧ ((spawnEnemy x g).mem x.alloc).Pos = V a b)
    ∧ (∀ q, q ≠ x.alloc → (spawnEnemy x g).mem q = g.mem q)
    ∧ (g.level = 1 → g.enemies.len = 0 → (spawnEnemy x g).enemies.len = 1) := by
  have hs := spawnEnemy_of_ok x g bounds h
  have hlen : (spawnEnemy x g).enemies.len = g.enemies.len + 1 := by
    rw [hs]; simp [Slice.len, append_elems]
  refine ⟨by rw [hs]; exact append_elems _ _ _, hlen, ?_, ?_, ?_⟩
  · refine ⟨Intn x.randX 1024, Intn x.randY 768, Nat.mod_lt _ (by norm_num),
      Nat.mod_lt _ (by norm_num), ?_⟩
    rw [hs]
    simp only [setPos_self]
  · intro q hq
    rw [hs]
    simp only
    rw [setPos_ne _ _ _ _ hq, set_ne _ _ _ _ hq]
  · intro _ h0
    rw [hlen, h0]

theorem spawnEnemy_appends_one_witness :
    (spawnEnemy (extOk 20 2000 5000) startState).enemies.elems
        = startState.enemies.elems ++ [(extOk 20 2000 5000).alloc]
    ∧ (spawnEnemy (extOk 20 2000 5000) startState).enemies.len = startState.enemies.len + 1
    ∧ (∃ a b : Nat, a < 1024 ∧ b < 768
        ∧ ((spawnEnemy (extOk 20 2000 5000) startState).mem (extOk 20 2000 5000).alloc).Pos
            = V a b)
    ∧ (∀ q, q ≠ (extOk 20 2000 5000).alloc →
        (spawnEnemy (extOk 20 2000 5000) startState).mem q = startState.mem q)
    ∧ (startState.level = 1 → startState.enemies.len = 0 →
        (spawnEnemy (extOk 20 2000 5000) startState).enemies.len = 1) :=
  spawnEnemy_appends_one (extOk 20 2000 5000) startState (R 0 0 32 32) rfl

/-- C6.  When the picture fails to load, `spawnEnemy` returns the state as it
received it, and `update` still returns a state: the one the collision loop
left, with the time of the call recorded. -/
theorem spawn_failure_is_silent (x : Ext) (g : GamePrototype) (err : String)
    (h : x.LoadPicture "enemy.png" = .error err) :
    spawnEnemy x g = g
    ∧ ∀ dt : ℚ,
        update x dt g
            = { collisionPass x (movePass x g) with lastTime := x.clock g.enemies.len }
        ∧ (update x dt g).enemies = (collisionPass x (movePass x g)).enemies := by
  have hs : ∀ g', spawnEnemy x g' = g' := fun g' => by simp [spawnEnemy, loadSprite, h]
  have hstep : spawnStep x (collisionPass x (movePass x g)) = collisionPass x (movePass x g) := by
    unfold spawnStep
    split
    · exact hs _
    · rfl
  refine ⟨hs g, fun dt => ?_⟩
  simp only [update, hstep, and_self]

theorem spawn_failure_is_silent_witness :
    spawnEnemy extFail (stateOf [2, 1, 3] [] 3 (memHit [1])) = stateOf [2, 1, 3] [] 3 (memHit [1])
    ∧ ∀ dt : ℚ,
        update extFail dt (stateOf [2, 1, 3] [] 3 (memHit [1]))
            = { collisionPass extFail (movePass extFail (stateOf [2, 1, 3] [] 3 (memHit [1]))) with
                lastTime := extFail.clock (stateOf [2, 1, 3] [] 3 (memHit [1])).enemies.len }
        ∧ (update extFail dt (stateOf [2, 1, 3] [] 3 (memHit [1]))).enemies
            = (collisionPass extFail
                (movePass extFail (stateOf [2, 1, 3] [] 3 (memHit [1])))).enemies :=
  spawn_failure_is_silent extFail (stateOf [2, 1, 3] [] 3 (memHit [1]))
    "open enemy.png: no such file" rfl

/-- C7.  The spawn step of `update` is guarded by the level.  If the enemy count
left by the collision loop is already the level or more, `update` adds no
enemy; if it is below the level and the picture loads, `update` adds exactly
one; and in no case does it add more than one. -/
theorem spawn_guarded_by_level (x : Ext) (dt : ℚ) (g : GamePrototype) :
    (g.level ≤ ((collisionPass x (movePass x g)).enemies.len : Int) →
        (update x dt g).enemies = (collisionPass x (movePass x g)).enemies)
    ∧ (((collisionPass x (movePass x g)).enemies.len : Int) < g.level →
        ∀ bounds, x.LoadPicture "enemy.png" = .ok bounds →
          (update x dt g).enemies.elems
              = (collisionPass x (movePass x g)).enemies.elems ++ [x.alloc]
          ∧ (update x dt g).enemies.len = (collisionPass x (movePass x g)).enemies.len + 1)
    ∧ (collisionPass x (movePass x g)).enemies.len ≤ (update x dt g).enemies.len
    ∧ (update x dt g).enemies.len ≤ (collisionPass x (movePass x g)).enemies.len + 1 := by
  have hcl := collisionPass_level x g
  have hue : (update x dt g).enemies = (spawnStep x (collisionPass x (movePass x g))).enemies :=
    rfl
  refine ⟨?_, ?_, ?_, ?_⟩
  · intro hge
    rw [hue]
    unfold spawnStep
    rw [hcl, if_neg (by omega)]
  · intro hlt bounds hb
    rw [hue]
    unfold spawnStep
    rw [hcl, if_pos hlt]
    rw [spawnEnemy_of_ok x _ bounds hb]
    simp [Slice.len, append_elems]
  · rw [hue]
    rcases spawnStep_elems x (collisionPass x (movePass x g)) with h | ⟨-, h⟩ <;>
      simp [Slice.len, h]
  · rw [hue]
    rcases spawnStep_elems x (collisionPass x (movePass x g)) with h | ⟨-, h⟩ <;>
      simp [Slice.len, h]

theorem spawn_guarded_by_level_witness :
    (update (extOk 20 5 7) 0 (stateOf [2, 3] [] 2 (memHit []))).enemies
        = (collisionPass (extOk 20 5 7)
            (movePass (extOk 20 5 7) (stateOf [2, 3] [] 2 (memHit [])))).enemies
    ∧ (update (extOk 20 5 7) 0 (stateOf [2, 3] [] 3 (memHit []))).enemies.elems
        = (collisionPass (extOk 20 5 7)
            (movePass (extOk 20 5 7) (stateOf [2, 3] [] 3 (memHit [])))).enemies.elems ++ [20] :=
  ⟨(spawn_guarded_by_level (extOk 20 5 7) 0 (stateOf [2, 3] [] 2 (memHit []))).1
      (by with_unfolding_all decide),
    ((spawn_guarded_by_level (extOk 20 5 7) 0 (stateOf [2, 3] [] 3 (memHit []))).2.1
      (by with_unfolding_all decide) (R 0 0 32 32) rfl).1⟩


/-- C8.  An enemy removed by the collision loop does not come back in the same
call: in a state with pairwise distinct enemies, the spawned enemy being a
newly allocated sprite, every enemy on which the collision loop of `update`
performed a removal is outside the enemy collection `update` returns, which is
the collection the next `update` starts from. -/
theorem removed_enemy_stays_out (x : Ext) (dt : ℚ) (g : GamePrototype)
    (hnd : g.enemies.elems.Nodup) (hnew : x.alloc ∉ g.enemies.elems) :
    ∀ e ∈ updateRemoved x g, e ∉ (update x dt g).enemies.elems := by
  intro e he
  have hm := movePass_fields x g
  obtain ⟨hin, hout⟩ := collisionRemoved_spec x (movePass x g).enemies.len 0 (movePass x g)
    (by rw [hm.1]; exact hnd) e he
  rw [hm.1] at hin
  have hue : (update x dt g).enemies = (spawnStep x (collisionPass x (movePass x g))).enemies :=
    rfl
  rw [hue]
  rcases spawnStep_elems x (collisionPass x (movePass x g)) with h | ⟨-, h⟩
  · rw [h]; exact hout
  · rw [h]
    simp only [List.mem_append, List.mem_singleton, not_or]
    exact ⟨hout, fun h' => hnew (h' ▸ hin)⟩

theorem removed_enemy_stays_out_witness :
    updateRemoved (extOk 20 5 7) (stateOf [1, 2, 3] [] 3 (memHit [1, 2, 3])) = [1, 3]
    ∧ 3 ∉ (update (extOk 20 5 7) 0 (stateOf [1, 2, 3] [] 3 (memHit [1, 2, 3]))).enemies.elems :=
  ⟨by with_unfolding_all decide,
    removed_enemy_stays_out (extOk 20 5 7) 0 (stateOf [1, 2, 3] [] 3 (memHit [1, 2, 3]))
      (by decide) (by decide) 3 (by with_unfolding_all decide)⟩

/-- C10.  In every state of a run, the level is 1 and there is no bullet, so
there is at most one enemy and one `update` raises the score by at most 1 (and
never lowers it). -/
theorem reachable_level_one (g : GamePrototype) (h : Reachable g) :
    g.level = 1 ∧ g.bullets = Slice.make0 ∧ g.enemies.len ≤ 1
    ∧ ∀ (x : Ext) (dt : ℚ),
        g.score ≤ (update x dt g).score ∧ (update x dt g).score ≤ g.score + 1 := by
  have hinv : g.level = 1 ∧ g.bullets = Slice.make0 ∧ (g.enemies.len : Int) ≤ g.level := by
    induction h with
    | start x winTitle g hg =>
      obtain ⟨he, hb, hl, -⟩ := NewGamePrototype_ok x winTitle g hg
      simp [he, hb, hl, Slice.make0, Slice.len]
    | update x dt g _ ih =>
      obtain ⟨-, hlev, hbul, -, -, -⟩ := update_fields x dt g
      exact ⟨hlev.trans ih.1, hbul.trans ih.2.1, update_len_le_level x dt g ih.2.2⟩
    | draw g _ ih => exact ih
  obtain ⟨hl, hb, hlen⟩ := hinv
  have hlen' : g.enemies.len ≤ 1 := by rw [hl] at hlen; exact_mod_cast hlen
  refine ⟨hl, hb, hlen', fun x dt => ?_⟩
  rw [(update_fields x dt g).1]
  have hm := movePass_fields x g
  show g.score ≤ (collisionLoop x (movePass x g).enemies.len 0 (movePass x g)).score
    ∧ (collisionLoop x (movePass x g).enemies.len 0 (movePass x g)).score ≤ g.score + 1
  rw [hm.1]
  have h1 := collisionLoop_score_le x (movePass x g).enemies.len 0 (movePass x g)
  have h2 := collisionLoop_score_le_add x (movePass x g).enemies.len 0 (movePass x g)
  rw [hm.2.2.1] at h1 h2
  rw [hm.1] at h1 h2
  have h3 : ((g.enemies.len : Nat) : Int) ≤ 1 := by exact_mod_cast hlen'
  exact ⟨h1, by omega⟩

theorem reachable_level_one_witness :
    (update (extOk 20 5 7) 0 startState).level = 1
    ∧ (update (extOk 20 5 7) 0 startState).bullets = Slice.make0
    ∧ (update (extOk 20 5 7) 0 startState).enemies.len ≤ 1
    ∧ ∀ (x : Ext) (dt : ℚ),
        (update (extOk 20 5 7) 0 startState).score
            ≤ (update x dt (update (extOk 20 5 7) 0 startState)).score
        ∧ (update x dt (update (extOk 20 5 7) 0 startState)).score
            ≤ (update (extOk 20 5 7) 0 startState).score + 1 :=
  reachable_level_one (update (extOk 20 5 7) 0 startState)
    (Reachable.update (extOk 20 5 7) 0 startState
      (Reachable.start (extOk 10 0 0) "game" startState rfl))

end GameProto
